/-
  Verification of the pycopg migration engine and SQL-building core.

  The definitions below are a shallow embedding of the Python sources
  (migrations.py, pycopg/utils.py, pycopg/base.py).  Strings are modelled
  as `List Char` over ASCII text; Python regular-expression behaviour is
  embedded by the deterministic algorithms that the concrete patterns
  reduce to (leftmost match, greedy/lazy quantifier resolution, and the
  CPython rule that an unanchored `$` also matches just before a single
  newline at the very end of the input).
-/
import Mathlib

namespace Pycopg

/-- `str s` is the character list of a string literal. -/
def str (s : String) : List Char := s.data

/-- Python `\s` / `str.strip` whitespace over ASCII text:
space, tab, newline, carriage return, vertical tab, form feed. -/
def pySpace (c : Char) : Bool :=
  c = ' ' || c = '\t' || c = '\n' || c = '\r' || c = '\x0b' || c = '\x0c'

/-- Python `str.strip()`: remove leading and trailing whitespace. -/
def pyStrip (s : List Char) : List Char :=
  ((s.dropWhile pySpace).reverse.dropWhile pySpace).reverse

/-- Case-insensitive literal match: strip the (uppercase) pattern `p`
from the front of `s`, returning the remainder.  Embeds the effect of
`re.IGNORECASE` on the literal section names `UP` / `DOWN`. -/
def dropCI : List Char → List Char → Option (List Char)
  | [], s => some s
  | _ :: _, [] => none
  | p :: ps, c :: cs => if c.toUpper = p then dropCI ps cs else none

/-- Match `\s*\n` (greedy `\s*` with backtracking) at the front of `s`:
succeeds iff some all-whitespace run followed by `'\n'` is a prefix, and
— matching CPython's greedy preference — consumes up to the *last*
newline inside the leading whitespace run. -/
def chopSN : List Char → Option (List Char)
  | [] => none
  | c :: cs =>
    if pySpace c then
      match chopSN cs with
      | some r => some r
      | none => if c = '\n' then some cs else none
    else none

/-- Match the marker `--\s*SEC\s*\n` at the front of `s` (`SEC` given in
uppercase, matched case-insensitively); returns the text after the
marker.  The `\s*` before `SEC` is forced to the maximal whitespace run
because the section names start with a non-whitespace character. -/
def markerAt (sec : List Char) (s : List Char) : Option (List Char) :=
  match s with
  | '-' :: '-' :: t =>
    match dropCI sec (t.dropWhile pySpace) with
    | some t2 => chopSN t2
    | none => none
  | _ => none

/-- Leftmost occurrence of the marker in `s` (the `re.search` phase):
returns the text following the first position where the marker matches. -/
def findMarker (sec : List Char) : List Char → Option (List Char)
  | [] => none
  | c :: cs =>
    match markerAt sec (c :: cs) with
    | some rest => some rest
    | none => findMarker sec cs

/-- The lookahead `(?=--\s*(?:UP|DOWN)\s*\n)`: does a marker of either
kind match at this position? -/
def isMarkerAhead (s : List Char) : Bool :=
  (markerAt (str "UP") s).isSome || (markerAt (str "DOWN") s).isSome

/-- The lazily-matched body `(.*?)` with lookahead
`(?=--\s*(?:UP|DOWN)\s*\n|$)`: take characters until either marker can
match, or `$` matches (end of text, or just before a trailing final
newline — CPython `$` without `re.MULTILINE`). -/
def takeBody : List Char → List Char
  | [] => []
  | c :: cs =>
    if isMarkerAhead (c :: cs) then []
    else if c :: cs = ['\n'] then []
    else c :: takeBody cs

/-- `Migrator._extract_section`: find the section marker, take the body
up to the next marker or end of text, and strip it.  `none` when the
marker does not occur. -/
def extract_section (sql : List Char) (sec : List Char) : Option (List Char) :=
  match findMarker sec sql with
  | some rest => some (pyStrip (takeBody rest))
  | none => none

example : extract_section (str "-- UP\nA;\n\n-- DOWN\nB;\n") (str "UP") = some (str "A;") := by decide
example : extract_section (str "-- UP\nA;\n\n-- DOWN\nB;\n") (str "DOWN") = some (str "B;") := by decide
example : extract_section (str "-- UP\nA;\n") (str "DOWN") = none := by decide
example : extract_section (str "X; -- UP\nA;\n") (str "UP") = some (str "A;") := by decide
example : extract_section (str "--\nUP\nA;") (str "UP") = some (str "A;") := by decide
example : extract_section (str "-- UP\n-- DOWN\nX;\n") (str "UP") = some [] := by decide
example : extract_section (str "-- UP\nA;\n-- DOWN") (str "UP") = some (str "A;\n-- DOWN") := by decide
example : extract_section (str "-- up\na;\n-- down\nb;") (str "DOWN") = some (str "b;") := by decide

instance {ε α : Type} [DecidableEq ε] [DecidableEq α] : DecidableEq (Except ε α) := fun a b =>
  match a, b with
  | Except.ok x, Except.ok y =>
    if h : x = y then isTrue (congrArg Except.ok h) else isFalse (fun hh => h (Except.ok.inj hh))
  | Except.error x, Except.error y =>
    if h : x = y then isTrue (congrArg Except.error h)
    else isFalse (fun hh => h (Except.error.inj hh))
  | Except.ok _, Except.error _ => isFalse (fun hh => Except.noConfusion hh)
  | Except.error _, Except.ok _ => isFalse (fun hh => Except.noConfusion hh)

/-! ## Migration filename parsing (`Migration._parse_filename`) -/

/-- Numeric value of a digit string (`int(match.group(1))`): leading
zeros are stripped by evaluation. -/
def natOfDigits (ds : List Char) : Nat :=
  ds.foldl (fun acc c => 10 * acc + (c.toNat - '0'.toNat)) 0

/-- Match `(.+)\.sql$` (greedy, `.` excludes newline, CPython `$`)
against the text after the underscore; returns the captured name.
A match forces the shape `name ++ ".sql"` optionally followed by one
final newline, with no newline inside `name`. -/
def pfCore (t : List Char) : List Char :=
  if t.getLast? = some '\n' then t.dropLast else t

def pfTail (t : List Char) : Option (List Char) :=
  if ('\n' ∈ pfCore t) then none
  else if (pfCore t).length < 5 then none
  else if (pfCore t).drop ((pfCore t).length - 4) = str ".sql" then
    if (pfCore t).take ((pfCore t).length - 4) = [] then none
    else some ((pfCore t).take ((pfCore t).length - 4))
  else none

/-- Match `^(\d+)_(.+)\.sql$` (`re.match`, CPython semantics) against a
filename; returns `(int(digits), name)` on success. -/
def pfMatch (fn : List Char) : Option (Nat × List Char) :=
  if fn.takeWhile Char.isDigit = [] then none
  else
    match fn.dropWhile Char.isDigit with
    | '_' :: t =>
      match pfTail t with
      | some nm => some (natOfDigits (fn.takeWhile Char.isDigit), nm)
      | none => none
    | _ => none

/-- `Migration._parse_filename`: parse `version` and `name` from the
filename, or fail with the exact `MigrationError` message. -/
def parse_filename (fn : List Char) : Except (List Char) (Nat × List Char) :=
  match pfMatch fn with
  | some vn => Except.ok vn
  | none => Except.error
      (str "Invalid migration filename: " ++ fn ++ str ". Expected format: NNN_description.sql")

example : parse_filename (str "007_add_email.sql") = Except.ok (7, str "add_email") := by decide
example : parse_filename (str "001_a.sql.sql") = Except.ok (1, str "a.sql") := by decide
example : parse_filename (str "001_x.sql\n") = Except.ok (1, str "x") := by decide
example : pfMatch (str "001_a\nb.sql") = none := by decide
example : pfMatch (str "001-x.sql") = none := by decide
example : pfMatch (str "x.sql") = none := by decide
example : pfMatch (str "001_.sql") = none := by decide
example : pfMatch (str "001_x.txt") = none := by decide

/-! ## Identifier and interval validation (`pycopg/utils.py`) -/

/-- The error raised by all validators in `pycopg/utils.py`. -/
inductive InvalidIdentifier where
  | mk
deriving DecidableEq

/-- `_IDENTIFIER_PATTERN.match name`, i.e. `^[a-zA-Z_][a-zA-Z0-9_]*$`
under `re.match`: first character a letter or underscore, the greedy
identifier-character run must reach the end of the string or leave
exactly one final newline (CPython `$`). -/
def identMatch (s : List Char) : Bool :=
  match s with
  | [] => false
  | c :: t =>
    (c.isAlpha || c = '_') &&
      (let r := t.dropWhile (fun d => d.isAlphanum || d = '_')
       r = [] || r = ['\n'])

/-- `validate_identifier`: rejects the empty string, then applies the
identifier pattern. -/
def validate_identifier (name : List Char) : Except InvalidIdentifier Unit :=
  if name = [] then Except.error InvalidIdentifier.mk
  else if identMatch name then Except.ok ()
  else Except.error InvalidIdentifier.mk

/-- `validate_identifiers`: validate each supplied name, skipping the
positions given as `None`. -/
def validate_identifiers : List (Option (List Char)) → Except InvalidIdentifier Unit
  | [] => Except.ok ()
  | none :: ns => validate_identifiers ns
  | some n :: ns =>
    match validate_identifier n with
    | Except.ok () => validate_identifiers ns
    | Except.error e => Except.error e

example : validate_identifier (str "users") = Except.ok () := by decide
example : validate_identifier (str "_my_table_123") = Except.ok () := by decide
example : validate_identifier (str "123users") = Except.error InvalidIdentifier.mk := by decide
example : validate_identifier (str "user-table") = Except.error InvalidIdentifier.mk := by decide
example : validate_identifier (str "DROP TABLE") = Except.error InvalidIdentifier.mk := by decide
example : validate_identifier [] = Except.error InvalidIdentifier.mk := by decide
example : validate_identifier (str "users\n") = Except.ok () := by decide
example : validate_identifier (str "users\nx") = Except.error InvalidIdentifier.mk := by decide

/-- Does the tail after the unit word satisfy `s?$` (case-insensitive,
on already-stripped text, so `$` is plain end of input)? -/
def sEnd (r : List Char) : Bool :=
  r = [] || r = ['s'] || r = ['S']

/-- One alternative of the unit alternation: the (lowercase) unit word
`w` matches case-insensitively at the front and the remainder satisfies
`s?$`. -/
def unitChk (w : List Char) (r : List Char) : Bool :=
  (r.take w.length).map Char.toLower = w && sEnd (r.drop w.length)

/-- The unit alternation `(second|minute|hour|day|week|month|year)s?$`. -/
def unitTail (r : List Char) : Bool :=
  unitChk (str "second") r || unitChk (str "minute") r || unitChk (str "hour") r ||
    unitChk (str "day") r || unitChk (str "week") r || unitChk (str "month") r ||
    unitChk (str "year") r

/-- `_INTERVAL_PATTERN.match`, i.e.
`^\d+\s+(second|minute|hour|day|week|month|year)s?$` with `re.IGNORECASE`,
applied to text that has already been stripped: a nonempty digit run, a
nonempty whitespace run, then a unit with optional trailing `s`. -/
def intervalMatch (t : List Char) : Bool :=
  (!(t.takeWhile Char.isDigit).isEmpty) &&
    (!((t.dropWhile Char.isDigit).takeWhile pySpace).isEmpty) &&
    unitTail ((t.dropWhile Char.isDigit).dropWhile pySpace)

/-- `validate_interval`: rejects the empty string, then matches the
interval pattern against the stripped input. -/
def validate_interval (interval : List Char) : Except InvalidIdentifier Unit :=
  if interval = [] then Except.error InvalidIdentifier.mk
  else if intervalMatch (pyStrip interval) then Except.ok ()
  else Except.error InvalidIdentifier.mk

example : validate_interval (str "1 day") = Except.ok () := by decide
example : validate_interval (str "7 days") = Except.ok () := by decide
example : validate_interval (str "  7  DAYS  ") = Except.ok () := by decide
example : validate_interval (str "1 WEEK") = Except.ok () := by decide
example : validate_interval (str "12 months") = Except.ok () := by decide
example : validate_interval (str "drop table") = Except.error InvalidIdentifier.mk := by decide
example : validate_interval (str "days 7") = Except.error InvalidIdentifier.mk := by decide
example : validate_interval [] = Except.error InvalidIdentifier.mk := by decide
example : validate_interval (str "7 dayss") = Except.error InvalidIdentifier.mk := by decide
example : validate_interval (str "0 days") = Except.ok () := by decide
example : validate_interval (str "7\tdays") = Except.ok () := by decide

/-! ## Batch INSERT builder (`QueryMixin._build_batch_insert_sql`) -/

/-- `", ".join xs`. -/
def joinComma (xs : List (List Char)) : List Char :=
  List.intercalate (str ", ") xs

/-- Python `row.get(col)`: look the key up in the row mapping, `none`
when absent (which the driver binds as SQL `NULL`). -/
def pyGet {V : Type} (row : List (List Char × V)) (k : List Char) : Option V :=
  (row.find? (fun p => p.1 == k)).map Prod.snd

/-- `QueryMixin._build_batch_insert_sql`: validate the identifiers, then
emit one `(...%s...)` placeholder group per row and extend a flat
parameter list with each row's values in column order. -/
def build_batch_insert_sql {V : Type} (table : List Char) (columns : List (List Char))
    (rows : List (List (List Char × V))) (schema : List Char)
    (on_conflict : Option (List Char)) :
    Except InvalidIdentifier (List Char × List (Option V)) :=
  match validate_identifiers ([some table, some schema] ++ columns.map some) with
  | Except.error e => Except.error e
  | Except.ok () =>
    let cols_str := joinComma columns
    let conflict_clause := match on_conflict with
      | some c => str " ON CONFLICT " ++ c
      | none => []
    let group := str "(" ++ joinComma (columns.map (fun _ => str "%s")) ++ str ")"
    let folded := rows.foldl
      (fun (acc : List (List Char) × List (Option V)) row =>
        (acc.1 ++ [group], acc.2 ++ columns.map (fun c => pyGet row c)))
      ([], [])
    let values_str := joinComma folded.1
    Except.ok
      (str "INSERT INTO " ++ schema ++ str "." ++ table ++ str " (" ++ cols_str ++
        str ") VALUES " ++ values_str ++ conflict_clause,
       folded.2)

example :
    build_batch_insert_sql (str "users") [str "name", str "email"]
      [[(str "name", str "A"), (str "email", str "a@x")],
       [(str "name", str "B"), (str "email", str "b@x")]]
      (str "public") none =
    Except.ok
      (str "INSERT INTO public.users (name, email) VALUES (%s, %s), (%s, %s)",
       [some (str "A"), some (str "a@x"), some (str "B"), some (str "b@x")]) := by decide

/-! ## The migration engine (`migrations.py`) -/

/-- One file in the migrations directory. -/
structure MigFile where
  fname : List Char
  content : List Char
deriving DecidableEq

/-- A parsed `Migration`. -/
structure Mig where
  filename : List Char
  version : Nat
  name : List Char
  sql : List Char
deriving DecidableEq

/-- Lexicographic order on character lists — the order in which
`sorted(migrations_dir.glob("*.sql"))` lists the files. -/
def lexLe : List Char → List Char → Bool
  | [], _ => true
  | _ :: _, [] => false
  | a :: as1, b :: bs => if a < b then true else if b < a then false else lexLe as1 bs

/-- The tracking table, as a list of `(version, name)` rows in insertion
order (the `applied_at` column plays no role in the verified claims). -/
abbrev DB := List (Nat × List Char)

/-- The versions recorded in the tracking table
(`Migrator._get_applied`, a set read via membership). -/
def versionsOf (db : DB) : List Nat := db.map Prod.fst

/-- `Migrator._get_migrations`: glob `*.sql` (name order), parse each
filename and silently skip failures, then stable-sort by version. -/
def discover (files : List MigFile) : List Mig :=
  let globbed := files.filter (fun f => (str ".sql").isSuffixOf f.fname)
  let ordered := List.insertionSort (fun a b => lexLe a.fname b.fname = true) globbed
  let parsed := ordered.filterMap (fun f =>
    match parse_filename f.fname with
    | Except.ok (v, n) => some ⟨f.fname, v, n, f.content⟩
    | Except.error _ => none)
  List.insertionSort (fun a b => a.version ≤ b.version) parsed

/-- `Migrator.pending`: discovered migrations whose version is not in
the tracking table, recomputed from both sources of truth. -/
def pending (files : List MigFile) (db : DB) : List Mig :=
  (discover files).filter (fun m => !decide (m.version ∈ versionsOf db))

/-- `Migrator.applied`: the tracking rows ordered by version
(`ORDER BY version`; stable sort of the stored rows). -/
def applied_list (db : DB) : List (Nat × List Char) :=
  List.insertionSort (fun a b : Nat × List Char => a.1 ≤ b.1) db

/-- The errors `migrate`/`rollback` raise, with the data their messages
carry (`Migration NNN_name failed`, `Migration file for version N not
found`, `No DOWN section in migration NNN_name`,
`Rollback of NNN_name failed`). -/
inductive MErr where
  | applyFailed (version : Nat) (name : List Char)
  | fileNotFound (version : Nat)
  | noDownSection (version : Nat) (name : List Char)
  | rollbackFailed (version : Nat) (name : List Char)
deriving DecidableEq

/-- The UP body chosen by `Migrator._apply`:
`self._extract_section(sql, "UP") or sql` — Python falsiness sends both
a missing marker and an *empty* extracted section to the whole file. -/
def upBody (sql : List Char) : List Char :=
  match extract_section sql (str "UP") with
  | some u => if u = [] then sql else u
  | none => sql

/-- One `Migrator._apply` call against tracking state `db`.  The oracle
`exec` says whether executing a given SQL text succeeds.  The UP body
and the tracking `INSERT` form one transactional unit, so any failure
(including the primary-key rejection of an already-present version)
leaves the state unchanged; success appends the new row. -/
def applyMig (exec : List Char → Bool) (m : Mig) (db : DB) : Option DB :=
  if exec (upBody m.sql) then
    if m.version ∈ versionsOf db then none
    else some (db ++ [(m.version, m.name)])
  else none

/-- The pending list that `migrate` iterates: `pending()`, restricted to
`version ≤ target` when a target is supplied. -/
def pendingT (files : List MigFile) (db : DB) (target : Option Nat) : List Mig :=
  match target with
  | some t => (pending files db).filter (fun m => decide (m.version ≤ t))
  | none => pending files db

/-- The `for migration in pending` loop of `Migrator.migrate`: apply in
order, halt and raise on the first failure (the final state is returned
alongside, since committed prior migrations stay committed). -/
def migrateLoop (exec : List Char → Bool) :
    List Mig → DB → List Mig → DB × Except MErr (List Mig)
  | [], db, acc => (db, Except.ok acc.reverse)
  | m :: rest, db, acc =>
    match applyMig exec m db with
    | some db2 => migrateLoop exec rest db2 (m :: acc)
    | none => (db, Except.error (MErr.applyFailed m.version m.name))

/-- `Migrator.migrate`: run the pending migrations (up to `target` when
given); returns the final tracking state together with either the list
of applied migrations or the wrapped failure. -/
def migrate (files : List MigFile) (exec : List Char → Bool) (db : DB)
    (target : Option Nat) : DB × Except MErr (List Mig) :=
  migrateLoop exec (pendingT files db target) db []

/-- `Migrator._find_migration`: first discovered migration with the
requested version. -/
def find_migration (files : List MigFile) (v : Nat) : Option Mig :=
  (discover files).find? (fun m => m.version == v)

/-- Python `applied[-steps:]`: the last `steps` entries — except that
`-0 == 0`, so `steps = 0` selects the *entire* list. -/
def takeLastPy {α : Type} (steps : Nat) (l : List α) : List α :=
  if steps = 0 then l else l.drop (l.length - steps)

/-- One iteration of the `Migrator.rollback` loop: locate the file,
extract the DOWN section (`if not down_sql` — absent *or empty* is
fatal), execute it and delete the tracking row as one unit. -/
def rbStep (files : List MigFile) (exec : List Char → Bool) (v : Nat)
    (n : List Char) (db : DB) : Except MErr DB :=
  match find_migration files v with
  | none => Except.error (MErr.fileNotFound v)
  | some m =>
    match extract_section m.sql (str "DOWN") with
    | none => Except.error (MErr.noDownSection v n)
    | some d =>
      if d = [] then Except.error (MErr.noDownSection v n)
      else if exec d then Except.ok (db.filter (fun r => decide (r.1 ≠ v)))
      else Except.error (MErr.rollbackFailed v n)

/-- The `for info in to_rollback` loop of `Migrator.rollback`. -/
def rollbackLoop (files : List MigFile) (exec : List Char → Bool) :
    List (Nat × List Char) → DB → List (Nat × List Char) →
    DB × Except MErr (List (Nat × List Char))
  | [], db, acc => (db, Except.ok acc.reverse)
  | (v, n) :: rest, db, acc =>
    match rbStep files exec v n db with
    | Except.ok db2 => rollbackLoop files exec rest db2 ((v, n) :: acc)
    | Except.error e => (db, Except.error e)

/-- The rollback work list:
`list(reversed(applied[-steps:]))` over the version-ordered applied list. -/
def rbPlan (db : DB) (steps : Nat) : List (Nat × List Char) :=
  (takeLastPy steps (applied_list db)).reverse

/-- `Migrator.rollback`: read the applied list once, take the last
`steps` entries, process them in reversed order. -/
def rollback (files : List MigFile) (exec : List Char → Bool) (db : DB)
    (steps : Nat) : DB × Except MErr (List (Nat × List Char)) :=
  if applied_list db = [] then (db, Except.ok [])
  else rollbackLoop files exec (rbPlan db steps) db []

/-- The row `recordApplied` inserts for a migration. -/
def rowOf (m : Mig) : Nat × List Char := (m.version, m.name)

/-! ## Definitions written from the claims, for refinement comparison -/

/-- Horizontal whitespace, as the word is used in the claim about marker
recognition. -/
def hwsp (c : Char) : Bool := c = ' ' || c = '\t'

/-- Split into lines at `'\n'` (every element of the result is the text
strictly between two consecutive newlines / the ends of the input). -/
def linesOf : List Char → List (List Char)
  | [] => [[]]
  | c :: cs =>
    match linesOf cs with
    | [] => [[c]]
    | l :: ls => if c = '\n' then [] :: l :: ls else (c :: l) :: ls

/-- Claim-side marker recognition: a whole line of the form
`--`, horizontal whitespace, the section word (case-insensitive),
horizontal whitespace. -/
def specMarkerLine (sec : List Char) (line : List Char) : Bool :=
  match line with
  | '-' :: '-' :: t =>
    match dropCI sec (t.dropWhile hwsp) with
    | some t2 => t2.all hwsp
    | none => false
  | _ => false

/-- Claim-side recognition condition: some line, other than a final line
not terminated by a newline, is a marker line. -/
def specHasMarker (sec : List Char) (t : List Char) : Bool :=
  ((linesOf t).dropLast).any (specMarkerLine sec)

/-- Claim-side filename admission under the standard reading of
`^(\d+)_(.+)\.sql$` (where `$` is the true end of input): a nonempty
digit run, an underscore, a nonempty middle, the exact suffix `.sql`. -/
def specFilenameMatch (fn : List Char) : Bool :=
  (!(fn.takeWhile Char.isDigit).isEmpty) &&
    (match fn.dropWhile Char.isDigit with
     | '_' :: t => decide (5 ≤ t.length) && decide (t.drop (t.length - 4) = str ".sql")
     | _ => false)

/-- The decomposition that makes `parse_filename` succeed with the given
version and name (the CPython reading of `^(\d+)_(.+)\.sql$`, whose `$`
also accepts one trailing newline and whose `.` excludes newlines). -/
def filenameShape (fn : List Char) (v : Nat) (nm : List Char) : Prop :=
  ∃ ds rest, fn = ds ++ '_' :: (nm ++ str ".sql" ++ rest) ∧
    (rest = [] ∨ rest = ['\n']) ∧ ds ≠ [] ∧ (∀ c ∈ ds, c.isDigit = true) ∧
    nm ≠ [] ∧ '\n' ∉ nm ∧ v = natOfDigits ds

/-- The decomposition accepted by the interval pattern on stripped text:
digits, whitespace, a unit word (case-insensitive), an optional final
`s`. -/
def intervalShape (t : List Char) : Prop :=
  ∃ ds ws u tl, t = ds ++ ws ++ u ++ tl ∧
    ds ≠ [] ∧ (∀ c ∈ ds, c.isDigit = true) ∧
    ws ≠ [] ∧ (∀ c ∈ ws, pySpace c = true) ∧
    u.map Char.toLower ∈
      [str "second", str "minute", str "hour", str "day", str "week", str "month", str "year"] ∧
    (tl = [] ∨ tl = ['s'] ∨ tl = ['S'])

/-- A two-migration directory used by the concrete scenarios. -/
def demoFiles : List MigFile :=
  [⟨str "001_create_users.sql", str "-- UP\nCREATE TABLE users (id int);\n\n-- DOWN\nDROP TABLE users;\n"⟩,
   ⟨str "002_add_email.sql", str "-- UP\nALTER TABLE users ADD email text;\n\n-- DOWN\nALTER TABLE users DROP COLUMN email;\n"⟩]

example :
    migrate demoFiles (fun _ => true) [] none =
      ([(1, str "create_users"), (2, str "add_email")],
       Except.ok
        [⟨str "001_create_users.sql", 1, str "create_users",
          str "-- UP\nCREATE TABLE users (id int);\n\n-- DOWN\nDROP TABLE users;\n"⟩,
         ⟨str "002_add_email.sql", 2, str "add_email",
          str "-- UP\nALTER TABLE users ADD email text;\n\n-- DOWN\nALTER TABLE users DROP COLUMN email;\n"⟩]) := by
  decide

example : pending demoFiles [(1, str "create_users"), (2, str "add_email")] = [] := by decide

example :
    rollback demoFiles (fun _ => true) [(1, str "create_users"), (2, str "add_email")] 1 =
      ([(1, str "create_users")], Except.ok [(2, str "add_email")]) := by decide

example :
    rollback demoFiles (fun _ => true) [(1, str "create_users"), (2, str "add_email")] 0 =
      ([], Except.ok [(2, str "add_email"), (1, str "create_users")]) := by decide

/-! ## Sortedness and loop infrastructure -/

instance : IsTotal Mig (fun a b => a.version ≤ b.version) := ⟨fun a b => Nat.le_total _ _⟩

instance : IsTrans Mig (fun a b => a.version ≤ b.version) := ⟨fun _ _ _ => Nat.le_trans⟩

instance : IsTotal (Nat × List Char) (fun a b => a.1 ≤ b.1) := ⟨fun a b => Nat.le_total _ _⟩

instance : IsTrans (Nat × List Char) (fun a b => a.1 ≤ b.1) := ⟨fun _ _ _ => Nat.le_trans⟩

theorem discover_sorted (files : List MigFile) :
    List.Pairwise (fun a b : Mig => a.version ≤ b.version) (discover files) :=
  List.sorted_insertionSort _ _

theorem pending_sorted (files : List MigFile) (db : DB) :
    List.Pairwise (fun a b : Mig => a.version ≤ b.version) (pending files db) :=
  (discover_sorted files).filter _

theorem pendingT_sorted (files : List MigFile) (db : DB) (target : Option Nat) :
    List.Pairwise (fun a b : Mig => a.version ≤ b.version) (pendingT files db target) := by
  cases target with
  | none => exact pending_sorted files db
  | some t => exact (pending_sorted files db).filter _

theorem mem_pending {files : List MigFile} {db : DB} {m : Mig} :
    m ∈ pending files db ↔ m ∈ discover files ∧ m.version ∉ versionsOf db := by
  simp [pending, List.mem_filter]

theorem applyMig_eq_some {exec : List Char → Bool} {m : Mig} {db db2 : DB}
    (h : applyMig exec m db = some db2) :
    db2 = db ++ [rowOf m] ∧ m.version ∉ versionsOf db ∧ exec (upBody m.sql) = true := by
  unfold applyMig at h
  cases hex : exec (upBody m.sql) with
  | false => rw [hex] at h; simp at h
  | true =>
    rw [hex] at h
    by_cases hv : m.version ∈ versionsOf db
    · rw [if_pos hv] at h; simp at h
    · rw [if_neg hv] at h
      exact ⟨(Option.some.inj h).symm, hv, rfl⟩

theorem versionsOf_append (a b : DB) : versionsOf (a ++ b) = versionsOf a ++ versionsOf b :=
  List.map_append _ a b

theorem versionsOf_rows (P : List Mig) : versionsOf (P.map rowOf) = P.map Mig.version := by
  simp [versionsOf, rowOf]

theorem migrateLoop_ok {exec : List Char → Bool} :
    ∀ {P : List Mig} {db : DB} {acc : List Mig} {db' : DB} {l : List Mig},
      migrateLoop exec P db acc = (db', Except.ok l) →
      l = acc.reverse ++ P ∧ db' = db ++ P.map rowOf ∧
        (P.map Mig.version).Nodup ∧ ∀ v ∈ P.map Mig.version, v ∉ versionsOf db := by
  intro P
  induction P with
  | nil =>
    intro db acc db' l h
    simp only [migrateLoop, Prod.mk.injEq, Except.ok.injEq] at h
    simp [h.1.symm, h.2.symm]
  | cons m rest ih =>
    intro db acc db' l h
    unfold migrateLoop at h
    cases ha : applyMig exec m db with
    | none => rw [ha] at h; simp [Prod.ext_iff] at h
    | some db2 =>
      rw [ha] at h
      obtain ⟨hl, hdb, hnd, hnotin⟩ := ih h
      obtain ⟨hdb2, hnv, -⟩ := applyMig_eq_some ha
      have hsub : versionsOf db2 = versionsOf db ++ [m.version] := by
        rw [hdb2, versionsOf_append]; rfl
      refine ⟨by simp [hl, List.append_assoc], ?_, ?_, ?_⟩
      · rw [hdb, hdb2]; simp [List.append_assoc]
      · refine List.Pairwise.cons (fun v hv => ?_) hnd
        intro hvm
        exact hnotin v hv (by rw [hsub, ← hvm]; exact List.mem_append_right _ (by simp))
      · intro v hv
        rcases List.mem_cons.mp hv with h1 | h1
        · rw [List.map_cons] at *; simpa [h1] using hnv
        · intro hvdb
          exact hnotin v h1 (by rw [hsub]; exact List.mem_append_left _ hvdb)

theorem migrateLoop_err {exec : List Char → Bool} :
    ∀ {P : List Mig} {db : DB} {acc : List Mig} {db' : DB} {e : MErr},
      migrateLoop exec P db acc = (db', Except.error e) →
      ∃ k m, P.get? k = some m ∧ e = MErr.applyFailed m.version m.name ∧
        db' = db ++ (P.take k).map rowOf ∧ applyMig exec m db' = none := by
  intro P
  induction P with
  | nil =>
    intro db acc db' e h
    simp [migrateLoop, Prod.ext_iff] at h
  | cons m rest ih =>
    intro db acc db' e h
    unfold migrateLoop at h
    cases ha : applyMig exec m db with
    | none =>
      rw [ha] at h
      simp only [Prod.mk.injEq, Except.error.injEq] at h
      refine ⟨0, m, rfl, h.2.symm, by simp [h.1.symm], by rw [← h.1]; exact ha⟩
    | some db2 =>
      rw [ha] at h
      obtain ⟨k, m', hget, he, hdb, happ⟩ := ih h
      obtain ⟨hdb2, -, -⟩ := applyMig_eq_some ha
      refine ⟨k + 1, m', hget, he, ?_, happ⟩
      rw [hdb, hdb2]
      simp [List.append_assoc]

theorem pairwise_lt_of_le_nodup {l : List Mig}
    (hs : List.Pairwise (fun a b : Mig => a.version ≤ b.version) l)
    (hn : (l.map Mig.version).Nodup) :
    List.Pairwise (fun a b : Mig => a.version < b.version) l := by
  have hne : List.Pairwise (fun a b : Mig => a.version ≠ b.version) l :=
    List.pairwise_map.mp hn
  exact (hs.and hne).imp fun hab => lt_of_le_of_ne hab.1 hab.2

/-! ## Claim C1 -/

/-- C1: `pending()` returns exactly the discovered migrations, in
ascending version order, whose versions are absent from the tracking
table, recomputed from both sources of truth; consequently a successful
`migrate()` leaves `pending()` empty and an immediate second `migrate()`
applies zero further migrations. -/
theorem pending_exact_and_migrate_idempotent
    (files : List MigFile) (exec : List Char → Bool) (db db' : DB) (l : List Mig) :
    List.Pairwise (fun a b : Mig => a.version ≤ b.version) (pending files db) ∧
    (∀ m : Mig, m ∈ pending files db ↔ m ∈ discover files ∧ m.version ∉ versionsOf db) ∧
    (migrate files exec db none = (db', Except.ok l) →
      pending files db' = [] ∧ migrate files exec db' none = (db', Except.ok [])) := by
  refine ⟨pending_sorted files db, fun m => mem_pending, fun h => ?_⟩
  have hloop := migrateLoop_ok (P := pendingT files db none) h
  obtain ⟨hl, hdb, -, -⟩ := hloop
  have hvers : versionsOf db' = versionsOf db ++ (pending files db).map Mig.version := by
    rw [hdb, versionsOf_append, versionsOf_rows]; rfl
  have hpend : pending files db' = [] := by
    refine List.filter_eq_nil_iff.mpr fun m hm => ?_
    simp only [Bool.not_eq_true', Bool.not_eq_false, decide_eq_true_eq]
    by_cases hv : m.version ∈ versionsOf db
    · rw [hvers]; exact List.mem_append_left _ hv
    · rw [hvers]
      exact List.mem_append_right _ (List.mem_map_of_mem _ (mem_pending.mpr ⟨hm, hv⟩))
  refine ⟨hpend, ?_⟩
  show migrateLoop exec (pendingT files db' none) db' [] = (db', Except.ok [])
  have : pendingT files db' none = [] := hpend
  rw [this]
  rfl

/-- Witness for C1: the two-file scenario after a successful
`migrate()`. -/
theorem pending_exact_and_migrate_idempotent_witness :
    pending demoFiles [(1, str "create_users"), (2, str "add_email")] = [] ∧
    migrate demoFiles (fun _ => true) [(1, str "create_users"), (2, str "add_email")] none =
      ([(1, str "create_users"), (2, str "add_email")], Except.ok []) :=
  (pending_exact_and_migrate_idempotent demoFiles (fun _ => true) []
      [(1, str "create_users"), (2, str "add_email")]
      [⟨str "001_create_users.sql", 1, str "create_users",
        str "-- UP\nCREATE TABLE users (id int);\n\n-- DOWN\nDROP TABLE users;\n"⟩,
       ⟨str "002_add_email.sql", 2, str "add_email",
        str "-- UP\nALTER TABLE users ADD email text;\n\n-- DOWN\nALTER TABLE users DROP COLUMN email;\n"⟩]).2.2
    (by decide)

/-! ## Claim C2 -/

/-- C2: `migrate([target])` processes the pending migrations (restricted
to `version ≤ target` when given) in ascending — on success strictly
ascending — version order; a failing migration is reported through a
`MigrationError` identifying its version and name, later pending
migrations are not attempted (the final state contains exactly the rows
of the successfully applied prefix), and an error is raised instead of a
partial list; on full success the applied migrations are returned in
order (empty when nothing was pending). -/
theorem migrate_order_halt_wrap
    (files : List MigFile) (exec : List Char → Bool) (db : DB) (target : Option Nat) :
    (∀ db' l, migrate files exec db target = (db', Except.ok l) →
      l = pendingT files db target ∧ db' = db ++ l.map rowOf ∧
        List.Pairwise (fun a b : Mig => a.version < b.version) l) ∧
    (∀ db' e, migrate files exec db target = (db', Except.error e) →
      ∃ k m, (pendingT files db target).get? k = some m ∧
        e = MErr.applyFailed m.version m.name ∧
        db' = db ++ ((pendingT files db target).take k).map rowOf ∧
        applyMig exec m db' = none) := by
  constructor
  · intro db' l h
    obtain ⟨hl, hdb, hnd, -⟩ := migrateLoop_ok (P := pendingT files db target) h
    simp only [List.reverse_nil, List.nil_append] at hl
    subst hl
    exact ⟨rfl, hdb, pairwise_lt_of_le_nodup (pendingT_sorted files db target) hnd⟩
  · intro db' e h
    exact migrateLoop_err (P := pendingT files db target) h

/-- Witness for C2: a successful targeted `migrate` on the two-file
scenario (target 1 applies only the first migration, in order). -/
theorem migrate_order_halt_wrap_witness :
    [⟨str "001_create_users.sql", 1, str "create_users",
      str "-- UP\nCREATE TABLE users (id int);\n\n-- DOWN\nDROP TABLE users;\n"⟩] =
        pendingT demoFiles [] (some 1) ∧
    [(1, str "create_users")] =
      ([] : DB) ++
        [(⟨str "001_create_users.sql", 1, str "create_users",
          str "-- UP\nCREATE TABLE users (id int);\n\n-- DOWN\nDROP TABLE users;\n"⟩ : Mig)].map rowOf ∧
    List.Pairwise (fun a b : Mig => a.version < b.version)
      [⟨str "001_create_users.sql", 1, str "create_users",
        str "-- UP\nCREATE TABLE users (id int);\n\n-- DOWN\nDROP TABLE users;\n"⟩] :=
  (migrate_order_halt_wrap demoFiles (fun _ => true) [] (some 1)).1
    [(1, str "create_users")]
    [⟨str "001_create_users.sql", 1, str "create_users",
      str "-- UP\nCREATE TABLE users (id int);\n\n-- DOWN\nDROP TABLE users;\n"⟩]
    (by decide)

/-! ## Rollback infrastructure -/

theorem applied_list_sorted (db : DB) :
    List.Pairwise (fun a b : Nat × List Char => a.1 ≤ b.1) (applied_list db) :=
  List.sorted_insertionSort _ _

theorem applied_list_perm (db : DB) : (applied_list db).Perm db :=
  List.perm_insertionSort _ _

theorem takeLastPy_sublist {α : Type} (steps : Nat) (l : List α) :
    (takeLastPy steps l).Sublist l := by
  unfold takeLastPy
  split
  · exact List.Sublist.refl l
  · exact List.drop_sublist _ l

theorem filter_notin_nil (db : DB) :
    db.filter (fun r => decide (r.1 ∉ ([] : List Nat))) = db := by
  simp

theorem filter_ne_filter_notin (db : DB) (v : Nat) (vs : List Nat) :
    (db.filter (fun r => decide (r.1 ≠ v))).filter (fun r => decide (r.1 ∉ vs)) =
      db.filter (fun r => decide (r.1 ∉ v :: vs)) := by
  rw [List.filter_filter]
  refine List.filter_congr fun a _ => ?_
  by_cases h1 : a.1 = v <;> by_cases h2 : a.1 ∈ vs <;> simp [h1, h2]

theorem rbStep_ok {files : List MigFile} {exec : List Char → Bool} {v : Nat}
    {n : List Char} {db db2 : DB} (h : rbStep files exec v n db = Except.ok db2) :
    db2 = db.filter (fun r => decide (r.1 ≠ v)) ∧
    ∃ m d, find_migration files v = some m ∧
      extract_section m.sql (str "DOWN") = some d ∧ d ≠ [] ∧ exec d = true := by
  unfold rbStep at h
  split at h
  · simp at h
  · rename_i m hf
    split at h
    · simp at h
    · rename_i d hx
      split at h
      · simp at h
      · rename_i hd
        split at h
        · rename_i he
          exact ⟨(Except.ok.inj h).symm, m, d, hf, hx, hd, he⟩
        · simp at h

theorem rbStep_err {files : List MigFile} {exec : List Char → Bool} {v : Nat}
    {n : List Char} {db : DB} {e : MErr} (h : rbStep files exec v n db = Except.error e) :
    (e = MErr.fileNotFound v ∧ find_migration files v = none) ∨
    e = MErr.noDownSection v n ∨ e = MErr.rollbackFailed v n := by
  unfold rbStep at h
  split at h
  · rename_i hf
    exact Or.inl ⟨(Except.error.inj h).symm, hf⟩
  · rename_i m hf
    split at h
    · exact Or.inr (Or.inl (Except.error.inj h).symm)
    · rename_i d hx
      split at h
      · exact Or.inr (Or.inl (Except.error.inj h).symm)
      · split at h
        · simp at h
        · exact Or.inr (Or.inr (Except.error.inj h).symm)

theorem rollbackLoop_ok {files : List MigFile} {exec : List Char → Bool} :
    ∀ {P : List (Nat × List Char)} {db : DB} {acc : List (Nat × List Char)}
      {db' : DB} {l : List (Nat × List Char)},
      rollbackLoop files exec P db acc = (db', Except.ok l) →
      l = acc.reverse ++ P ∧
      db' = db.filter (fun r => decide (r.1 ∉ P.map Prod.fst)) ∧
      ∀ p ∈ P, ∃ m d, find_migration files p.1 = some m ∧
        extract_section m.sql (str "DOWN") = some d ∧ d ≠ [] ∧ exec d = true := by
  intro P
  induction P with
  | nil =>
    intro db acc db' l h
    simp only [rollbackLoop, Prod.mk.injEq, Except.ok.injEq] at h
    refine ⟨by simp [h.2.symm], ?_, by simp⟩
    rw [← h.1, List.map_nil, filter_notin_nil]
  | cons p rest ih =>
    intro db acc db' l h
    obtain ⟨v, n⟩ := p
    unfold rollbackLoop at h
    cases hs : rbStep files exec v n db with
    | error e => rw [hs] at h; simp [Prod.ext_iff] at h
    | ok db2 =>
      rw [hs] at h
      obtain ⟨hl, hdb, hall⟩ := ih h
      obtain ⟨hdb2, m, d, hf, hx, hd, he⟩ := rbStep_ok hs
      refine ⟨by simp [hl, List.append_assoc], ?_, ?_⟩
      · rw [hdb, hdb2, List.map_cons, filter_ne_filter_notin]
      · intro q hq
        rcases List.mem_cons.mp hq with h1 | h1
        · subst h1; exact ⟨m, d, hf, hx, hd, he⟩
        · exact hall q h1

theorem rollbackLoop_err {files : List MigFile} {exec : List Char → Bool} :
    ∀ {P : List (Nat × List Char)} {db : DB} {acc : List (Nat × List Char)}
      {db' : DB} {e : MErr},
      rollbackLoop files exec P db acc = (db', Except.error e) →
      ∃ k q, P.get? k = some q ∧
        db' = db.filter (fun r => decide (r.1 ∉ (P.take k).map Prod.fst)) ∧
        rbStep files exec q.1 q.2 db' = Except.error e := by
  intro P
  induction P with
  | nil =>
    intro db acc db' e h
    simp [rollbackLoop, Prod.ext_iff] at h
  | cons p rest ih =>
    intro db acc db' e h
    obtain ⟨v, n⟩ := p
    unfold rollbackLoop at h
    cases hs : rbStep files exec v n db with
    | error e2 =>
      rw [hs] at h
      simp only [Prod.mk.injEq, Except.error.injEq] at h
      refine ⟨0, (v, n), rfl, ?_, ?_⟩
      · rw [← h.1, List.take_zero, List.map_nil, filter_notin_nil]
      · rw [← h.1, ← h.2]; exact hs
    | ok db2 =>
      rw [hs] at h
      obtain ⟨k, q, hget, hdb, hstep⟩ := ih h
      obtain ⟨hdb2, -⟩ := rbStep_ok hs
      refine ⟨k + 1, q, hget, ?_, hstep⟩
      rw [hdb, hdb2, List.take_succ_cons, List.map_cons, filter_ne_filter_notin]

theorem rbPlan_desc {db : DB} (steps : Nat) (hN : (versionsOf db).Nodup) :
    List.Pairwise (fun a b : Nat × List Char => b.1 < a.1) (rbPlan db steps) := by
  have hs : List.Pairwise (fun a b : Nat × List Char => a.1 ≤ b.1)
      (takeLastPy steps (applied_list db)) :=
    List.Pairwise.sublist (takeLastPy_sublist _ _) (applied_list_sorted db)
  have hnd : ((takeLastPy steps (applied_list db)).map Prod.fst).Nodup := by
    have h1 : ((applied_list db).map Prod.fst).Nodup :=
      (((applied_list_perm db).map Prod.fst).nodup_iff).mpr hN
    exact h1.sublist ((takeLastPy_sublist _ _).map Prod.fst)
  have hne : List.Pairwise (fun a b : Nat × List Char => a.1 ≠ b.1)
      (takeLastPy steps (applied_list db)) := List.pairwise_map.mp hnd
  have hlt : List.Pairwise (fun a b : Nat × List Char => a.1 < b.1)
      (takeLastPy steps (applied_list db)) :=
    (hs.and hne).imp fun hab => lt_of_le_of_ne hab.1 hab.2
  exact List.pairwise_reverse.mpr hlt

/-! ## Claim C3 -/

/-- C3: `rollback(steps)` takes the last `steps` entries of the
version-ordered applied list, processes them in reversed (strictly
descending, given the tracking table's unique versions) order, executing
each entry's nonempty DOWN body and deleting its rows; it fails when the
file for a version is not found by discovery or when there is no DOWN
section, and on any failure it halts with exactly the already-processed
prefix rolled back; on full success it returns the processed entries in
order, and returns the empty list when nothing is applied. -/
theorem rollback_plan_halt_errors
    (files : List MigFile) (exec : List Char → Bool) (db : DB) (steps : Nat)
    (hN : (versionsOf db).Nodup) :
    (db = [] → rollback files exec db steps = (db, Except.ok [])) ∧
    (∀ db' l, rollback files exec db steps = (db', Except.ok l) →
      l = rbPlan db steps ∧
      List.Pairwise (fun a b : Nat × List Char => b.1 < a.1) l ∧
      db' = db.filter (fun r => decide (r.1 ∉ l.map Prod.fst)) ∧
      ∀ p ∈ l, ∃ m d, find_migration files p.1 = some m ∧
        extract_section m.sql (str "DOWN") = some d ∧ d ≠ [] ∧ exec d = true) ∧
    (∀ db' e, rollback files exec db steps = (db', Except.error e) →
      ∃ k q, (rbPlan db steps).get? k = some q ∧
        db' = db.filter (fun r => decide (r.1 ∉ ((rbPlan db steps).take k).map Prod.fst)) ∧
        rbStep files exec q.1 q.2 db' = Except.error e ∧
        ((e = MErr.fileNotFound q.1 ∧ find_migration files q.1 = none) ∨
          e = MErr.noDownSection q.1 q.2 ∨ e = MErr.rollbackFailed q.1 q.2)) := by
  refine ⟨?_, ?_, ?_⟩
  · intro h
    subst h
    rfl
  · intro db' l h
    unfold rollback at h
    by_cases hA : applied_list db = []
    · rw [if_pos hA] at h
      simp only [Prod.mk.injEq, Except.ok.injEq] at h
      have hplan : rbPlan db steps = [] := by
        unfold rbPlan takeLastPy
        rw [hA]
        split <;> simp
      refine ⟨by rw [hplan, ← h.2], by rw [← h.2]; exact List.Pairwise.nil, ?_, ?_⟩
      · rw [← h.1, ← h.2, List.map_nil, filter_notin_nil]
      · intro p hp; rw [← h.2] at hp; simp at hp
    · rw [if_neg hA] at h
      obtain ⟨hl, hdb, hall⟩ := rollbackLoop_ok h
      simp only [List.reverse_nil, List.nil_append] at hl
      subst hl
      exact ⟨rfl, rbPlan_desc steps hN, hdb, hall⟩
  · intro db' e h
    unfold rollback at h
    by_cases hA : applied_list db = []
    · rw [if_pos hA] at h; simp [Prod.ext_iff] at h
    · rw [if_neg hA] at h
      obtain ⟨k, q, hget, hdb, hstep⟩ := rollbackLoop_err h
      exact ⟨k, q, hget, hdb, hstep, rbStep_err hstep⟩

/-- Witness for C3: rolling back one step of the two-migration scenario
removes exactly the latest version and returns it. -/
theorem rollback_plan_halt_errors_witness :
    [(2, str "add_email")] = rbPlan [(1, str "create_users"), (2, str "add_email")] 1 ∧
    List.Pairwise (fun a b : Nat × List Char => b.1 < a.1) [(2, str "add_email")] ∧
    [(1, str "create_users")] =
      ([(1, str "create_users"), (2, str "add_email")] : DB).filter
        (fun r => decide (r.1 ∉ ([(2, str "add_email")].map Prod.fst))) ∧
    ∀ p ∈ [(2, str "add_email")], ∃ m d, find_migration demoFiles p.1 = some m ∧
      extract_section m.sql (str "DOWN") = some d ∧ d ≠ [] ∧ (fun _ => true) d = true :=
  ((rollback_plan_halt_errors demoFiles (fun _ => true)
      [(1, str "create_users"), (2, str "add_email")] 1 (by decide)).2.1
    [(1, str "create_users")] [(2, str "add_email")] (by decide))

/-! ## Claim C10 -/

/-- C10: because Python `applied[-steps:]` with `steps = 0` is the whole
list, `rollback(steps=0)` on a non-empty applied list attempts to roll
back every applied migration in descending version order — the same
behaviour as `rollback(steps=len(db))` — rather than rolling back
none. -/
theorem rollback_zero_rolls_back_all
    (files : List MigFile) (exec : List Char → Bool) (db : DB) (hne : db ≠ []) :
    rollback files exec db 0 = rollback files exec db db.length ∧
    rbPlan db 0 = (applied_list db).reverse := by
  have hlen : (applied_list db).length = db.length := (applied_list_perm db).length_eq
  have hAne : applied_list db ≠ [] := by
    intro h0
    have hp := (applied_list_perm db).symm
    rw [h0] at hp
    exact hne hp.eq_nil
  have h0 : takeLastPy 0 (applied_list db) = applied_list db := by simp [takeLastPy]
  have hn : takeLastPy db.length (applied_list db) = applied_list db := by
    unfold takeLastPy
    have hd : db.length ≠ 0 := by simpa [List.length_eq_zero] using hne
    rw [if_neg hd, hlen, Nat.sub_self, List.drop_zero]
  constructor
  · unfold rollback rbPlan
    rw [if_neg hAne, if_neg hAne, h0, hn]
  · unfold rbPlan
    rw [h0]

/-- Witness for C10: with two applied rows, `rollback(steps=0)` behaves
like `rollback(steps=2)` and plans to roll back both. -/
theorem rollback_zero_rolls_back_all_witness :
    rollback demoFiles (fun _ => true) [(1, str "create_users"), (2, str "add_email")] 0 =
      rollback demoFiles (fun _ => true) [(1, str "create_users"), (2, str "add_email")]
        ([(1, str "create_users"), (2, str "add_email")] : DB).length ∧
    rbPlan [(1, str "create_users"), (2, str "add_email")] 0 =
      (applied_list [(1, str "create_users"), (2, str "add_email")]).reverse :=
  rollback_zero_rolls_back_all demoFiles (fun _ => true)
    [(1, str "create_users"), (2, str "add_email")] (by decide)

/-! ## Claim C4 -/

/-- Counterexample to C4: the code's marker search is not anchored to
line starts — in `"X; -- UP\nA;\n"` no line is a marker line in the
claim's sense, yet extraction recognizes the mid-line `-- UP` and
returns `"A;"` instead of absent. -/
theorem extract_section_not_line_anchored :
    specHasMarker (str "UP") (str "X; -- UP\nA;\n") = false ∧
    extract_section (str "X; -- UP\nA;\n") (str "UP") = some (str "A;") := by
  decide

/-- C4 (amended): the marker pattern `--`, whitespace, section word,
whitespace, newline is recognized *anywhere* in the text, not only on
its own line, and the whitespace around the section word may include
newlines; the body runs from the marker's terminating newline to the
next position where either marker matches or to the end of text, and is
trimmed.  In particular the claim's concrete examples hold. -/
theorem extract_section_recognition :
    extract_section (str "-- UP\nA;\n\n-- DOWN\nB;\n") (str "UP") = some (str "A;") ∧
    extract_section (str "-- UP\nA;\n\n-- DOWN\nB;\n") (str "DOWN") = some (str "B;") ∧
    extract_section (str "-- UP\nA;\n") (str "DOWN") = none ∧
    extract_section (str "X; -- UP\nA;\n") (str "UP") = some (str "A;") ∧
    extract_section (str "--\nUP\nA;") (str "UP") = some (str "A;") ∧
    extract_section (str "-- up\t \na;\n-- down\nb;") (str "DOWN") = some (str "b;") ∧
    extract_section (str "-- UPX\nA;") (str "UP") = none := by
  decide

/-! ## Claim C5 -/

/-- Counterexample to C5: a file whose UP marker is immediately followed
by the DOWN marker has an UP marker and an (empty) extracted UP section,
yet `_apply`'s `extract(...) or sql` executes the *entire file*, not the
extracted section. -/
theorem upBody_empty_section_falls_back :
    extract_section (str "-- UP\n-- DOWN\nDROP TABLE t;\n") (str "UP") = some [] ∧
    upBody (str "-- UP\n-- DOWN\nDROP TABLE t;\n") = str "-- UP\n-- DOWN\nDROP TABLE t;\n" ∧
    str "-- UP\n-- DOWN\nDROP TABLE t;\n" ≠ [] := by
  decide

/-- C5 (amended): the SQL executed as the UP body is the extracted UP
section exactly when the text contains an UP marker *and* the extracted
(trimmed) section is non-empty; when there is no UP marker, or the
extracted section is empty, the entire file text is executed. -/
theorem upBody_cases (sql u : List Char) :
    (extract_section sql (str "UP") = some u → u ≠ [] → upBody sql = u) ∧
    ((extract_section sql (str "UP") = none ∨ extract_section sql (str "UP") = some []) →
      upBody sql = sql) := by
  constructor
  · intro hx hu
    unfold upBody
    rw [hx]
    simp [hu]
  · intro h
    unfold upBody
    rcases h with h | h
    · rw [h]
    · rw [h]
      simp

/-- Witness for C5 (amended): a marker with a non-empty section is
executed as extracted. -/
theorem upBody_cases_witness :
    upBody (str "-- UP\nA;\n\n-- DOWN\nB;\n") = str "A;" :=
  (upBody_cases (str "-- UP\nA;\n\n-- DOWN\nB;\n") (str "A;")).1 (by decide) (by decide)

/-! ## Claim C7 -/

/-- C7 (code bug): the validator's pattern ends in `$` under `re.match`,
and CPython `$` also matches just before a single trailing newline, so
`validate_identifier("users\n")` succeeds even though the string
contains whitespace and violates the documented
letters/digits/underscores contract (the pattern should have used
`\Z`). -/
theorem validate_identifier_accepts_trailing_newline :
    validate_identifier (str "users\n") = Except.ok () ∧
    '\n' ∈ str "users\n" ∧ pySpace '\n' = true := by
  decide

/-! ## Claim C6 -/

theorem batch_fold {V : Type} (group : List Char) (cols : List (List Char)) :
    ∀ (rows : List (List (List Char × V))) (xs : List (List Char)) (ys : List (Option V)),
      rows.foldl
        (fun (acc : List (List Char) × List (Option V)) row =>
          (acc.1 ++ [group], acc.2 ++ cols.map fun c => pyGet row c)) (xs, ys) =
      (xs ++ List.replicate rows.length group,
        ys ++ rows.flatMap fun row => cols.map fun c => pyGet row c) := by
  intro rows
  induction rows with
  | nil => intro xs ys; simp
  | cons r rows ih =>
    intro xs ys
    rw [List.foldl_cons, ih]
    simp [List.replicate_succ, List.append_assoc]

theorem batch_params_length {V : Type} (cols : List (List Char))
    (rows : List (List (List Char × V))) :
    (rows.flatMap fun row => cols.map fun c => pyGet row c).length =
      rows.length * cols.length := by
  induction rows with
  | nil => simp
  | cons r rows ih => simp [ih, Nat.succ_mul, Nat.add_comm]

/-- C6: for validated table, schema and columns, the batch-insert
builder produces the statement with exactly one parenthesized group of
`len(columns)` placeholders per row, and a flat parameter list in
row-major order — each row contributing its value (or a bound null for
an absent key) for each column in column order — whose length is
`len(rows) * len(columns)`, matching the placeholder count. -/
theorem batch_insert_rowmajor {V : Type} (table schema : List Char)
    (cols : List (List Char)) (rows : List (List (List Char × V)))
    (hv : validate_identifiers ([some table, some schema] ++ cols.map some) = Except.ok ()) :
    build_batch_insert_sql table cols rows schema none =
      Except.ok
        (str "INSERT INTO " ++ schema ++ str "." ++ table ++ str " (" ++ joinComma cols ++
          str ") VALUES " ++
          joinComma (List.replicate rows.length
            (str "(" ++ joinComma (List.replicate cols.length (str "%s")) ++ str ")")),
         rows.flatMap fun row => cols.map fun c => pyGet row c) ∧
    (rows.flatMap fun row => cols.map fun c => pyGet row c).length =
      rows.length * cols.length := by
  refine ⟨?_, batch_params_length cols rows⟩
  unfold build_batch_insert_sql
  rw [hv]
  show Except.ok _ = Except.ok _
  rw [batch_fold]
  simp [joinComma, List.map_const', List.append_assoc]

/-- Witness for C6: the spec's scenario — two rows over columns
`name, email` yield two `(%s, %s)` groups and the flat parameter list
`["A", "a@x", "B", "b@x"]`. -/
theorem batch_insert_rowmajor_witness :
    build_batch_insert_sql (str "users") [str "name", str "email"]
        [[(str "name", str "A"), (str "email", str "a@x")],
         [(str "name", str "B"), (str "email", str "b@x")]] (str "public") none =
      Except.ok (str "INSERT INTO public.users (name, email) VALUES (%s, %s), (%s, %s)",
        [some (str "A"), some (str "a@x"), some (str "B"), some (str "b@x")]) := by
  have h := (batch_insert_rowmajor (str "users") (str "public") [str "name", str "email"]
    [[(str "name", str "A"), (str "email", str "a@x")],
     [(str "name", str "B"), (str "email", str "b@x")]] (by decide)).1
  exact h.trans (by decide)

/-! ## Claim C9 -/
theorem takeWhile_split {α : Type} {p : α → Bool} :
    ∀ {l1 l2 : List α}, (∀ a ∈ l1, p a = true) → (∀ a, l2.head? = some a → p a = false) →
      (l1 ++ l2).takeWhile p = l1 ∧ (l1 ++ l2).dropWhile p = l2 := by
  intro l1
  induction l1 with
  | nil =>
    intro l2 h1 h2
    simp only [List.nil_append]
    cases l2 with
    | nil => simp
    | cons a t =>
      have ha := h2 a rfl
      exact ⟨by simp [List.takeWhile_cons, ha], by simp [List.dropWhile_cons, ha]⟩
  | cons c l1 ih =>
    intro l2 h1 h2
    have hc : p c = true := h1 c (by simp)
    obtain ⟨ht, hd⟩ := ih (fun a ha => h1 a (by simp [ha])) h2
    exact ⟨by simp [List.takeWhile_cons, hc, ht], by simp [List.dropWhile_cons, hc, hd]⟩

theorem pySpace_cases {c : Char} (h : pySpace c = true) :
    c = ' ' ∨ c = '\t' ∨ c = '\n' ∨ c = '\r' ∨ c = '\x0b' ∨ c = '\x0c' := by
  simpa [pySpace, or_assoc] using h

theorem pySpace_not_digit {c : Char} (h : pySpace c = true) : c.isDigit = false := by
  rcases pySpace_cases h with h|h|h|h|h|h <;> subst h <;> decide

theorem pySpace_toLower_self {c : Char} (h : pySpace c = true) : c.toLower = c := by
  rcases pySpace_cases h with h|h|h|h|h|h <;> subst h <;> decide

theorem sEnd_cases {x : List Char} (h : sEnd x = true) : x = [] ∨ x = ['s'] ∨ x = ['S'] := by
  simpa [sEnd, or_assoc] using h

theorem unitChk_eq_true {w r : List Char} (h : unitChk w r = true) :
    (r.take w.length).map Char.toLower = w ∧ sEnd (r.drop w.length) = true := by
  have h2 := (Bool.and_eq_true _ _).mp h
  exact ⟨by simpa using h2.1, h2.2⟩

/-- A unit word of the pattern never starts with a whitespace character
(its lowercase form starts with a letter). -/
theorem unit_head_not_space {u w : List Char}
    (hw : w ∈ [str "second", str "minute", str "hour", str "day", str "week",
      str "month", str "year"])
    (hm : u.map Char.toLower = w) :
    ∀ a, u.head? = some a → pySpace a = false := by
  intro a ha
  by_contra hb
  have hsp : pySpace a = true := by revert hb; cases pySpace a <;> simp
  have hlow : a.toLower = a := pySpace_toLower_self hsp
  cases u with
  | nil => simp at ha
  | cons u0 ut =>
    have hu0 : u0 = a := by simpa using ha
    subst hu0
    have hh : w.head? = some u0 := by
      rw [← hm]
      simp [hlow]
    fin_cases hw <;>
      (simp only [str] at hh
       have := Option.some.inj hh
       rw [← this] at hsp
       exact absurd hsp (by decide))

theorem intervalMatch_iff (t : List Char) : intervalMatch t = true ↔ intervalShape t := by
  constructor
  · intro h
    unfold intervalMatch at h
    have hsplit := (Bool.and_eq_true _ _).mp h
    have h1 := ((Bool.and_eq_true _ _).mp hsplit.1).1
    have h2 := ((Bool.and_eq_true _ _).mp hsplit.1).2
    have h3 := hsplit.2
    have hds : t.takeWhile Char.isDigit ≠ [] := by simpa using h1
    have hws : (t.dropWhile Char.isDigit).takeWhile pySpace ≠ [] := by simpa using h2
    have hsplit1 : t.takeWhile Char.isDigit ++ t.dropWhile Char.isDigit = t :=
      List.takeWhile_append_dropWhile _ _
    have hsplit2 :
        (t.dropWhile Char.isDigit).takeWhile pySpace ++
          (t.dropWhile Char.isDigit).dropWhile pySpace = t.dropWhile Char.isDigit :=
      List.takeWhile_append_dropWhile _ _
    have h3' : unitChk (str "second") ((t.dropWhile Char.isDigit).dropWhile pySpace) = true ∨
        unitChk (str "minute") ((t.dropWhile Char.isDigit).dropWhile pySpace) = true ∨
        unitChk (str "hour") ((t.dropWhile Char.isDigit).dropWhile pySpace) = true ∨
        unitChk (str "day") ((t.dropWhile Char.isDigit).dropWhile pySpace) = true ∨
        unitChk (str "week") ((t.dropWhile Char.isDigit).dropWhile pySpace) = true ∨
        unitChk (str "month") ((t.dropWhile Char.isDigit).dropWhile pySpace) = true ∨
        unitChk (str "year") ((t.dropWhile Char.isDigit).dropWhile pySpace) = true := by
      simpa [unitTail, Bool.or_eq_true, or_assoc] using h3
    obtain ⟨w, hwmem, hchk⟩ : ∃ w ∈ [str "second", str "minute", str "hour", str "day",
        str "week", str "month", str "year"],
        unitChk w ((t.dropWhile Char.isDigit).dropWhile pySpace) = true := by
      rcases h3' with h|h|h|h|h|h|h
      exacts [⟨_, by simp, h⟩, ⟨_, by simp, h⟩, ⟨_, by simp, h⟩, ⟨_, by simp, h⟩,
        ⟨_, by simp, h⟩, ⟨_, by simp, h⟩, ⟨_, by simp, h⟩]
    obtain ⟨hmap, htl⟩ := unitChk_eq_true hchk
    refine ⟨t.takeWhile Char.isDigit, (t.dropWhile Char.isDigit).takeWhile pySpace,
      ((t.dropWhile Char.isDigit).dropWhile pySpace).take w.length,
      ((t.dropWhile Char.isDigit).dropWhile pySpace).drop w.length, ?_, hds,
      fun c hc => List.mem_takeWhile_imp hc, hws,
      fun c hc => List.mem_takeWhile_imp hc, ?_, sEnd_cases htl⟩
    · simp only [List.append_assoc]
      rw [List.take_append_drop, hsplit2, hsplit1]
    · rw [hmap]; exact hwmem
  · rintro ⟨ds, ws, u, tl, rfl, hds, hdig, hws, hsp, hu, htl⟩
    have hu_ne : u ≠ [] := by
      intro h0
      subst h0
      exact absurd hu (by decide)
    have hws_head : ∀ a, (ws ++ u ++ tl).head? = some a → Char.isDigit a = false := by
      intro a ha
      cases ws with
      | nil => exact absurd rfl hws
      | cons w0 wt =>
        have hw0 : w0 = a := by simpa using ha
        subst hw0
        exact pySpace_not_digit (hsp w0 (by simp))
    have hsplit1 := takeWhile_split (p := Char.isDigit) hdig hws_head
    have hu_head : ∀ a, (u ++ tl).head? = some a → pySpace a = false := by
      intro a ha
      cases u with
      | nil => exact absurd rfl hu_ne
      | cons u0 ut =>
        have hu0 : u0 = a := by simpa using ha
        subst hu0
        exact unit_head_not_space hu rfl u0 rfl
    have hsplit2 := takeWhile_split (p := pySpace) hsp hu_head
    have hlen : (u.map Char.toLower).length = u.length := List.length_map _ _
    have htake : (u ++ tl).take (u.map Char.toLower).length = u := by
      rw [hlen]; exact List.take_left u tl
    have hdrop : (u ++ tl).drop (u.map Char.toLower).length = tl := by
      rw [hlen]; exact List.drop_left u tl
    have hchk : unitChk (u.map Char.toLower) (u ++ tl) = true := by
      unfold unitChk
      rw [htake, hdrop]
      refine (Bool.and_eq_true _ _).mpr ⟨by simp, ?_⟩
      unfold sEnd
      rcases htl with h|h|h <;> simp [h]
    unfold intervalMatch
    rw [show ds ++ ws ++ u ++ tl = ds ++ (ws ++ u ++ tl) by simp [List.append_assoc]]
    rw [hsplit1.1, hsplit1.2]
    rw [show ws ++ u ++ tl = ws ++ (u ++ tl) by simp [List.append_assoc]]
    rw [hsplit2.1, hsplit2.2]
    refine (Bool.and_eq_true _ _).mpr
      ⟨(Bool.and_eq_true _ _).mpr ⟨by simpa using hds, by simpa using hws⟩, ?_⟩
    have hu' : u.map Char.toLower = str "second" ∨ u.map Char.toLower = str "minute" ∨
        u.map Char.toLower = str "hour" ∨ u.map Char.toLower = str "day" ∨
        u.map Char.toLower = str "week" ∨ u.map Char.toLower = str "month" ∨
        u.map Char.toLower = str "year" := by
      simpa [or_assoc] using hu
    unfold unitTail
    rcases hu' with h|h|h|h|h|h|h <;> rw [h] at hchk <;> simp [hchk]

/-- Counterexample to C9: `\d+` also matches `0`, so `"0 days"` — whose
number is not positive — is accepted by the validator. -/
theorem validate_interval_accepts_zero :
    validate_interval (str "0 days") = Except.ok () ∧
    (pyStrip (str "0 days")).takeWhile Char.isDigit = ['0'] ∧
    natOfDigits ['0'] = 0 := by
  decide

/-- C9 (amended): the interval validator succeeds exactly when the
trimmed input decomposes as one or more digits (the number may be zero),
one or more whitespace characters, and a unit from
second/minute/hour/day/week/month/year, case-insensitive with an
optional trailing `s`; it fails with `InvalidIdentifier` on the empty
string and on every other input. -/
theorem validate_interval_characterization (s : List Char) :
    validate_interval s = Except.ok () ↔ s ≠ [] ∧ intervalShape (pyStrip s) := by
  unfold validate_interval
  by_cases h0 : s = []
  · simp [h0]
  · rw [if_neg h0]
    by_cases hm : intervalMatch (pyStrip s) = true
    · simp only [hm, if_true]
      simp [h0, (intervalMatch_iff _).mp hm]
    · have hns : ¬ intervalShape (pyStrip s) := fun hs => hm ((intervalMatch_iff _).mpr hs)
      have hmf : intervalMatch (pyStrip s) = false := by
        revert hm; cases intervalMatch (pyStrip s) <;> simp
      simp [hmf, hns]

/-- Witness for C9 (amended): `"7 days"` validates and decomposes. -/
theorem validate_interval_characterization_witness :
    (str "7 days") ≠ [] ∧ intervalShape (pyStrip (str "7 days")) :=
  (validate_interval_characterization (str "7 days")).mp (by decide)

/-! ## Claim C8 -/

theorem getLast?_some_decomp {α : Type} :
    ∀ {l : List α} {c : α}, l.getLast? = some c → l = l.dropLast ++ [c]
  | [], c, h => by simp at h
  | [a], c, h => by
    have : a = c := by simpa using h
    subst this
    rfl
  | a :: b :: t, c, h => by
    have hrec := getLast?_some_decomp (l := b :: t) (c := c) (by simpa using h)
    show a :: b :: t = (a :: (b :: t).dropLast) ++ [c]
    rw [List.cons_append, ← hrec]

theorem pfTail_eq_some {t nm : List Char} (h : pfTail t = some nm) :
    ∃ rest, t = nm ++ str ".sql" ++ rest ∧ (rest = [] ∨ rest = ['\n']) ∧
      nm ≠ [] ∧ '\n' ∉ nm := by
  unfold pfTail at h
  by_cases h1 : '\n' ∈ pfCore t
  · rw [if_pos h1] at h; simp at h
  · rw [if_neg h1] at h
    by_cases h2 : (pfCore t).length < 5
    · rw [if_pos h2] at h; simp at h
    · rw [if_neg h2] at h
      by_cases h3 : (pfCore t).drop ((pfCore t).length - 4) = str ".sql"
      · rw [if_pos h3] at h
        by_cases h4 : (pfCore t).take ((pfCore t).length - 4) = []
        · rw [if_pos h4] at h; simp at h
        · rw [if_neg h4] at h
          have hnm : nm = (pfCore t).take ((pfCore t).length - 4) := (Option.some.inj h).symm
          have hcore : pfCore t = nm ++ str ".sql" := by
            rw [hnm, ← h3, List.take_append_drop]
          have hnl : '\n' ∉ nm := fun hin => h1 (by rw [hcore]; exact List.mem_append_left _ hin)
          have hne : nm ≠ [] := hnm ▸ h4
          by_cases h5 : t.getLast? = some '\n'
          · refine ⟨['\n'], ?_, Or.inr rfl, hne, hnl⟩
            have hdec := getLast?_some_decomp h5
            have hc : pfCore t = t.dropLast := by unfold pfCore; rw [if_pos h5]
            rw [← hcore, hc, ← hdec]
          · refine ⟨[], ?_, Or.inl rfl, hne, hnl⟩
            have hc : pfCore t = t := by unfold pfCore; rw [if_neg h5]
            rw [List.append_nil, ← hcore, hc]
      · rw [if_neg h3] at h; simp at h

theorem pfTail_of_shape {nm rest : List Char} (hrest : rest = [] ∨ rest = ['\n'])
    (hnm : nm ≠ []) (hnl : '\n' ∉ nm) :
    pfTail (nm ++ str ".sql" ++ rest) = some nm := by
  have hnl4 : '\n' ∉ str ".sql" := by decide
  have hcore : pfCore (nm ++ str ".sql" ++ rest) = nm ++ str ".sql" := by
    rcases hrest with rfl | rfl
    · unfold pfCore
      rw [List.append_nil, List.getLast?_append,
        show (str ".sql").getLast? = some 'l' from by decide]
      rw [if_neg (by intro hcontra; simp [Option.or] at hcontra)]
    · unfold pfCore
      rw [List.getLast?_concat, if_pos rfl, List.dropLast_concat]
  unfold pfTail
  rw [hcore]
  have hnin : '\n' ∉ nm ++ str ".sql" := by
    intro hmem
    rcases List.mem_append.mp hmem with hmem | hmem
    · exact hnl hmem
    · exact hnl4 hmem
  rw [if_neg hnin]
  have hlen : (nm ++ str ".sql").length = nm.length + 4 := by
    rw [List.length_append, show (str ".sql").length = 4 from by decide]
  have hpos : 0 < nm.length := List.length_pos.mpr hnm
  have hlt : ¬ (nm ++ str ".sql").length < 5 := by omega
  rw [if_neg hlt]
  have hidx : (nm ++ str ".sql").length - 4 = nm.length := by omega
  rw [hidx, List.drop_left, if_pos rfl, List.take_left, if_neg hnm]

theorem pfMatch_iff (fn : List Char) (v : Nat) (nm : List Char) :
    pfMatch fn = some (v, nm) ↔ filenameShape fn v nm := by
  constructor
  · intro h
    unfold pfMatch at h
    split at h
    · simp at h
    · rename_i h1
      split at h
      · rename_i t hdw
        split at h
        · rename_i nm' hpt
          have hv : natOfDigits (fn.takeWhile Char.isDigit) = v ∧ nm' = nm := by
            have := Option.some.inj h
            exact ⟨congrArg Prod.fst this, congrArg Prod.snd this⟩
          obtain ⟨rest, ht, hrest, hne, hnl⟩ := pfTail_eq_some hpt
          refine ⟨fn.takeWhile Char.isDigit, rest, ?_, hrest, h1, ?_, ?_, ?_, hv.1.symm⟩
          · rw [← hv.2, ← ht, ← hdw, List.takeWhile_append_dropWhile]
          · intro c hc; exact List.mem_takeWhile_imp hc
          · rw [← hv.2]; exact hne
          · rw [← hv.2]; exact hnl
        · simp at h
      · simp at h
  · rintro ⟨ds, rest, rfl, hrest, hds, hdig, hnm, hnl, rfl⟩
    have hhead : ∀ a, ('_' :: (nm ++ str ".sql" ++ rest)).head? = some a →
        Char.isDigit a = false := by
      intro a ha
      have : '_' = a := by simpa using ha
      subst this
      decide
    have hsp := takeWhile_split (p := Char.isDigit) hdig hhead
    unfold pfMatch
    rw [hsp.1, hsp.2, if_neg hds]
    have hpt := pfTail_of_shape hrest hnm hnl
    rw [List.append_assoc] at hpt
    simp [hpt]

/-- Counterexample to C8: the filename `"001_x.sql\n"` does not match
`^(\d+)_(.+)\.sql$` under the standard (end-of-input) reading of `$`,
so by the claim its construction must fail — but CPython `$` accepts the
single trailing newline and the parser returns version 1, name `x`. -/
theorem parse_filename_trailing_newline :
    specFilenameMatch (str "001_x.sql\n") = false ∧
    parse_filename (str "001_x.sql\n") = Except.ok (1, str "x") := by
  decide

/-- C8 (amended): parsing succeeds with `(int(digits), name)` exactly on
filenames of the form digits, underscore, a nonempty newline-free name,
the suffix `.sql`, and — the CPython `$` reading — an optional single
trailing newline; on every other filename it fails with exactly the
claimed `MigrationError` message. -/
theorem parse_filename_characterization (fn : List Char) :
    (∀ v nm, parse_filename fn = Except.ok (v, nm) ↔ filenameShape fn v nm) ∧
    (parse_filename fn =
        Except.error (str "Invalid migration filename: " ++ fn ++
          str ". Expected format: NNN_description.sql") ↔
      ¬ ∃ v nm, filenameShape fn v nm) := by
  have hok : ∀ v nm, parse_filename fn = Except.ok (v, nm) ↔ pfMatch fn = some (v, nm) := by
    intro v nm
    unfold parse_filename
    cases h : pfMatch fn with
    | none => simp
    | some vn => obtain ⟨v', nm'⟩ := vn; simp
  refine ⟨fun v nm => (hok v nm).trans (pfMatch_iff fn v nm), ?_⟩
  cases h : pfMatch fn with
  | none =>
    constructor
    · rintro _ ⟨v, nm, hs⟩
      exact absurd ((pfMatch_iff fn v nm).mpr hs) (by simp [h])
    · intro _
      unfold parse_filename
      rw [h]
  | some vn =>
    obtain ⟨v, nm⟩ := vn
    constructor
    · intro he
      exfalso
      unfold parse_filename at he
      rw [h] at he
      simp at he
    · intro hne
      exact absurd ⟨v, nm, (pfMatch_iff fn v nm).mp h⟩ hne

/-- Witness for C8 (amended): `"007_add_email.sql"` parses to version 7
(leading zeros stripped) with the verbatim name, and decomposes as the
amended claim requires. -/
theorem parse_filename_characterization_witness :
    filenameShape (str "007_add_email.sql") 7 (str "add_email") :=
  ((parse_filename_characterization (str "007_add_email.sql")).1 7 (str "add_email")).mp
    (by decide)

end Pycopg
